import Mathlib

/-!
Shallow embedding of the filter-matching engine of `src/src/filters.cpp`
(acquisition's filter framework).  Strings are modelled as `List Char`,
C++ `double` as `ℚ`, C++ `int` as `ℤ`.  Each definition mirrors the
source function it is named after; external library routines
(`::tolower`, `std::stod`, `QString::toDouble/toInt/number`,
`std::string::find`) are modelled in the scope the claims need, with the
modelling choices recorded in the doc comments.
-/

/-- Strings of the C++ source, modelled character by character. -/
abbrev Str := List Char

/-- Model of C `::tolower` in the default locale: ASCII upper-case letters
map to lower case, every other character is unchanged. -/
def cToLower (c : Char) : Char :=
  if 65 ≤ c.toNat ∧ c.toNat ≤ 90 then Char.ofNat (c.toNat + 32) else c

/-- Numeric value of one ASCII digit character. -/
def digitVal (c : Char) : ℕ := c.toNat - 48

/-- Value of a string of ASCII digits, most significant first
(leading zeros allowed). -/
def digitsVal (l : Str) : ℕ := l.foldl (fun a c => 10 * a + digitVal c) 0

/-- `leads needle hay`: `needle` occurs at the very start of `hay`. -/
def leads : Str → Str → Bool
  | [], _ => true
  | _ :: _, [] => false
  | a :: as, b :: bs => a == b && leads as bs

/-- Model of `std::string::find(needle) != npos` on `hay`: some position of
`hay` starts an occurrence of `needle` (an empty `needle` is found at
position 0). -/
def strFind (needle : Str) : Str → Bool
  | [] => leads needle []
  | c :: rest => leads needle (c :: rest) || strFind needle rest

/-- `needle` occurs contiguously inside `hay` (the specification-side meaning
of "contains as a substring"). -/
def ContainsSub (needle hay : Str) : Prop :=
  ∃ pre post, hay = pre ++ needle ++ post

/-- `FilterData` (filters.cpp:31): the value holder for one filter's
user-entered criteria.  The C++ constructor initialises `text_query` to ""
and all five `*_filled` flags to `false`; the numeric fields start
uninitialised. -/
structure FilterData where
  text_query : Str
  min : ℚ
  max : ℚ
  min_filled : Bool
  max_filled : Bool
  r : ℤ
  g : ℤ
  b : ℤ
  r_filled : Bool
  g_filled : Bool
  b_filled : Bool

/-- A `FilterData` as `FilterData::FilterData` (filters.cpp:31-39) leaves it:
empty query, all flags `false`, numeric fields holding whatever garbage
(`minv maxv rv gv bv`) the uninitialised memory held. -/
def freshFilterData (minv maxv : ℚ) (rv gv bv : ℤ) : FilterData :=
  { text_query := []
    min := minv
    max := maxv
    min_filled := false
    max_filled := false
    r := rv
    g := gv
    b := bv
    r_filled := false
    g_filled := false
    b_filled := false }

/-- `NameSearchFilter::Matches` (filters.cpp:69-75): lower-case both the
query and the item's display name (`item->PrettyName()`, passed in as
`name`), then test `name.find(query) != npos`. -/
def NameSearchFilter.Matches (name : Str) (data : FilterData) : Bool :=
  strFind (data.text_query.map cToLower) (name.map cToLower)

/-- `MinMaxFilter::Matches` (filters.cpp:145-156), with the variant-specific
`IsValuePresent`/`GetValue` pair supplied as `value?` (`none` = the value is
absent, `some v` = present with value `v`). -/
def MinMaxFilter.Matches (value? : Option ℚ) (data : FilterData) : Bool :=
  match value? with
  | some value =>
    if data.min_filled && decide (data.min > value) then false
    else if data.max_filled && decide (data.max < value) then false
    else true
  | none => !data.max_filled && !data.min_filled

/-- `SocketsColorsFilter::Check` (filters.cpp:250-254): the colour deficit
that white sockets must cover. -/
def SocketsColorsFilter.Check (need_r need_g need_b got_r got_g got_b got_w : ℤ) : Bool :=
  decide (max 0 (need_r - got_r) + max 0 (need_g - got_g) + max 0 (need_b - got_b) ≤ got_w)

/-- `SocketsColorsFilter::Matches` (filters.cpp:256-268), with the item's
total per-colour socket counts `sr sg sb sw` (`item->sockets_r()` etc.)
passed in. -/
def SocketsColorsFilter.Matches (sr sg sb sw : ℤ) (data : FilterData) : Bool :=
  if !data.r_filled && !data.g_filled && !data.b_filled then true
  else
    let need_r : ℤ := if data.r_filled then data.r else 0
    let need_g : ℤ := if data.g_filled then data.g else 0
    let need_b : ℤ := if data.b_filled then data.b else 0
    SocketsColorsFilter.Check need_r need_g need_b sr sg sb sw

/-- One socket of the item's JSON socket array (`item->json()["sockets"]`):
its link-group id (`socket["group"].asInt()`) and its attribute code
(`socket["attr"].asString()`). -/
structure ItemSocket where
  group : ℤ
  attr : Str

/-- One set of per-colour socket counters. -/
structure SocketCounts where
  r : ℤ
  g : ℤ
  b : ℤ
  w : ℤ
deriving DecidableEq

/-- The counter increments of one socket, from the first character of its
attribute code (filters.cpp:292-305): `S` is red, `D` green, `I` blue,
`G` white; anything else — including an empty attribute, whose
`asString()[0]` reads the terminating NUL — counts as nothing. -/
def socketDelta (attr : Str) : SocketCounts :=
  match attr with
  | 'S' :: _ => ⟨1, 0, 0, 0⟩
  | 'D' :: _ => ⟨0, 1, 0, 0⟩
  | 'I' :: _ => ⟨0, 0, 1, 0⟩
  | 'G' :: _ => ⟨0, 0, 0, 1⟩
  | _ => ⟨0, 0, 0, 0⟩

/-- The socket loop of `LinksColorsFilter::Matches` (filters.cpp:284-307):
state is the current group id `cur` and the counters `gr gg gb gw`.  On a
socket whose group differs from `cur` the code evaluates `Check` (early
return on success) and resets `got_r`, `got_g`, `got_b` — but not `got_w`
(filters.cpp:289).  Then it sets `current` to the socket's group and counts
the socket.  After the loop one final `Check` runs on the remaining
counters. -/
def linksLoop (nr ng nb cur gr gg gb gw : ℤ) : List ItemSocket → Bool
  | [] => SocketsColorsFilter.Check nr ng nb gr gg gb gw
  | s :: rest =>
    let d := socketDelta s.attr
    if cur = s.group then
      linksLoop nr ng nb s.group (gr + d.r) (gg + d.g) (gb + d.b) (gw + d.w) rest
    else if SocketsColorsFilter.Check nr ng nb gr gg gb gw then true
    else linksLoop nr ng nb s.group d.r d.g d.b (gw + d.w) rest

/-- `LinksColorsFilter::Matches` (filters.cpp:274-308), with the item's
socket array passed in.  `current` starts at 0, all counters at 0. -/
def LinksColorsFilter.Matches (sockets : List ItemSocket) (data : FilterData) : Bool :=
  if !data.r_filled && !data.g_filled && !data.b_filled then true
  else
    let need_r : ℤ := if data.r_filled then data.r else 0
    let need_g : ℤ := if data.g_filled then data.g else 0
    let need_b : ℤ := if data.b_filled then data.b else 0
    linksLoop need_r need_g need_b 0 0 0 0 0 sockets

/-- Specification-side grouping: the item's sockets partitioned into maximal
contiguous runs of equal group id. -/
def groupRuns (sockets : List ItemSocket) : List (List ItemSocket) :=
  sockets.splitBy (fun a b => a.group == b.group)

/-- Specification-side per-group counts: the colour counters accumulated
over the sockets of one group alone. -/
def runCounts (run : List ItemSocket) : SocketCounts :=
  run.foldl
    (fun acc s =>
      let d := socketDelta s.attr
      ⟨acc.r + d.r, acc.g + d.g, acc.b + d.b, acc.w + d.w⟩)
    ⟨0, 0, 0, 0⟩

/-- Specification-side per-group evaluation: `Check` applied to the counts
accumulated within one single contiguous group. -/
def runCheck (nr ng nb : ℤ) (run : List ItemSocket) : Bool :=
  let c := runCounts run
  SocketsColorsFilter.Check nr ng nb c.r c.g c.b c.w

/-- The sequence of `Check` evaluations the socket loop performs, in order:
one at every group boundary, and one final evaluation after the input is
exhausted.  The loop's early return makes its result `true` exactly when
some element of this list is `true` (the state never depends on a failed
evaluation). -/
def linksEvals (nr ng nb cur gr gg gb gw : ℤ) : List ItemSocket → List Bool
  | [] => [SocketsColorsFilter.Check nr ng nb gr gg gb gw]
  | s :: rest =>
    let d := socketDelta s.attr
    if cur = s.group then
      linksEvals nr ng nb s.group (gr + d.r) (gg + d.g) (gb + d.b) (gw + d.w) rest
    else
      SocketsColorsFilter.Check nr ng nb gr gg gb gw ::
        linksEvals nr ng nb s.group d.r d.g d.b (gw + d.w) rest

/-- The counter state (`got_r`, `got_g`, `got_b`, `got_w`) the socket loop
holds after consuming all sockets, i.e. the state of its final `Check`. -/
def linksFinalCounts (cur gr gg gb gw : ℤ) : List ItemSocket → SocketCounts
  | [] => ⟨gr, gg, gb, gw⟩
  | s :: rest =>
    let d := socketDelta s.attr
    if cur = s.group then
      linksFinalCounts s.group (gr + d.r) (gg + d.g) (gb + d.b) (gw + d.w) rest
    else
      linksFinalCounts s.group d.r d.g d.b (gw + d.w) rest

/-- The error a failed `std::stod` raises (`std::invalid_argument`): no
initial portion of the string could be converted. -/
inductive ParseError where
  | invalidArgument
deriving DecidableEq

/-- Unsigned part of the `std::stod` model: a run of decimal digits, then
optionally a decimal point and a further run of digits; at least one digit
in total, trailing unconvertible characters ignored (as `strtod` stops at
the first character that cannot continue the number). -/
def stodUnsigned (s : Str) : Option ℚ :=
  let ip := s.takeWhile Char.isDigit
  let rest := s.dropWhile Char.isDigit
  match rest with
  | '.' :: rest2 =>
    let fp := rest2.takeWhile Char.isDigit
    if ip = [] ∧ fp = [] then none
    else some ((digitsVal ip : ℚ) + (digitsVal fp : ℚ) / 10 ^ fp.length)
  | _ => if ip = [] then none else some ((digitsVal ip : ℚ))

/-- Model of C++ `std::stod` in the scope the claims exercise: optional
leading spaces, an optional sign, then a decimal number (hexadecimal,
infinity/NaN and exponent forms are left out — no claim turns on them).
`none` stands for the `std::invalid_argument` it throws when no conversion
can be performed. -/
def stod (s : Str) : Option ℚ :=
  match s.dropWhile (· = ' ') with
  | [] => stodUnsigned []
  | c :: rest =>
    if c = '-' then (stodUnsigned rest).map Neg.neg
    else if c = '+' then stodUnsigned rest
    else stodUnsigned (c :: rest)

/-- `SimplePropertyFilter::IsValuePresent` (filters.cpp:158-160):
`item->properties().count(property_)`, with the item's property mapping
passed as the association list `props`. -/
def SimplePropertyFilter.IsValuePresent (props : List (Str × Str)) (property : Str) : Bool :=
  (List.lookup property props).isSome

/-- `SimplePropertyFilter::GetValue` (filters.cpp:162-164):
`std::stod(item->properties().at(property_))`.  Only ever called when the
key is present; `none` is the propagating `std::invalid_argument`. -/
def SimplePropertyFilter.GetValue (props : List (Str × Str)) (property : Str) : Option ℚ :=
  match List.lookup property props with
  | some s => stod s
  | none => none

/-- `MinMaxFilter::Matches` as instantiated by `SimplePropertyFilter`
(filters.cpp:145-164): look the key up; if absent take the absent branch;
if present convert with `std::stod`, whose failure propagates out of
`Matches` as `.error` (nothing in the source catches it). -/
def SimplePropertyFilter.Matches (props : List (Str × Str)) (property : Str)
    (data : FilterData) : Except ParseError Bool :=
  match List.lookup property props with
  | none => .ok (MinMaxFilter.Matches none data)
  | some s =>
    match stod s with
    | none => .error .invalidArgument
    | some v => .ok (MinMaxFilter.Matches (some v) data)

/-- `RequiredStatFilter::GetValue` (filters.cpp:166-171): the entry of the
item's requirement mapping under the filter's property name, or 0 when the
key is missing. -/
def RequiredStatFilter.GetValue (reqs : List (Str × ℚ)) (property : Str) : ℚ :=
  match List.lookup property reqs with
  | some v => v
  | none => 0

/-- Modelled from the spec: `MinMaxFilter::IsValuePresent`, the base-class
default that `RequiredStatFilter` inherits, lives in `filters.h`, which is
not among the provided sources; per the spec a RequiredStat value
"defaults to 0 (always present) if missing". -/
def RequiredStatFilter.IsValuePresent : Bool := true

/-- `RequiredStatFilter`'s whole evaluation: the value is always present,
so `MinMaxFilter::Matches` always takes the present branch with
`GetValue`'s result. -/
def RequiredStatFilter.Matches (reqs : List (Str × ℚ)) (property : Str)
    (data : FilterData) : Bool :=
  MinMaxFilter.Matches (some (RequiredStatFilter.GetValue reqs property)) data

/-- The character of one decimal digit. -/
def digitChar (d : ℕ) : Char :=
  ['0', '1', '2', '3', '4', '5', '6', '7', '8', '9'].getD d '0'

/-- Decimal digit characters of `n`, most significant first, with explicit
fuel (`fuel ≥ n` suffices); `[]` for `n = 0`. -/
def natCharsAux : ℕ → ℕ → Str
  | 0, _ => []
  | _ + 1, 0 => []
  | fuel + 1, n => natCharsAux fuel (n / 10) ++ [digitChar (n % 10)]

/-- Canonical decimal rendering of a natural number. -/
def natChars (n : ℕ) : Str :=
  if n = 0 then ['0'] else natCharsAux n n

/-- `l` left-padded with `'0'` to length `k`. -/
def padZeros (k : ℕ) (l : Str) : Str :=
  List.replicate (k - l.length) '0' ++ l

/-- Model of `QString::toInt` restricted to its success/failure shape: the
whole string must be an optional sign followed by at least one decimal
digit; `none` is the failure Qt reports through its `ok` flag. -/
def qParseInt (s : Str) : Option ℤ :=
  match s with
  | [] => none
  | c :: rest =>
    if c = '-' then
      if rest ≠ [] ∧ rest.all Char.isDigit then some (-(digitsVal rest : ℤ)) else none
    else if c = '+' then
      if rest ≠ [] ∧ rest.all Char.isDigit then some ((digitsVal rest : ℤ)) else none
    else if (c :: rest).all Char.isDigit then some ((digitsVal (c :: rest) : ℤ)) else none

/-- `QString::toInt()` as the source calls it (no `ok` out-parameter):
0 on failure. -/
def qToInt (s : Str) : ℤ := (qParseInt s).getD 0

/-- Unsigned part of the `QString::toDouble` model: digits, optionally a
decimal point and further digits, nothing else, at least one digit. -/
def qParseUnsigned (s : Str) : Option ℚ :=
  let ip := s.takeWhile Char.isDigit
  let rest := s.dropWhile Char.isDigit
  match rest with
  | [] => if ip = [] then none else some ((digitsVal ip : ℚ))
  | '.' :: fp =>
    if fp.all Char.isDigit ∧ ¬(ip = [] ∧ fp = []) then
      some ((digitsVal ip : ℚ) + (digitsVal fp : ℚ) / 10 ^ fp.length)
    else none
  | _ => none

/-- Model of `QString::toDouble` on plain decimal text (the well-formed
numeric input of the round-trip property; exponent forms are left out, and
the 64-bit `double` is idealised as an exact rational). -/
def qParseDouble (s : Str) : Option ℚ :=
  match s with
  | [] => qParseUnsigned []
  | c :: rest =>
    if c = '-' then (qParseUnsigned rest).map Neg.neg
    else if c = '+' then qParseUnsigned rest
    else qParseUnsigned (c :: rest)

/-- `QString::toDouble()` as the source calls it: 0.0 on failure. -/
def qToDouble (s : Str) : ℚ := (qParseDouble s).getD 0

/-- Multiplicity of `p` in `n`, with explicit fuel (`fuel ≥ n` suffices). -/
def pMultAux (p : ℕ) : ℕ → ℕ → ℕ
  | 0, _ => 0
  | fuel + 1, n => if 2 ≤ p ∧ n ≠ 0 ∧ n % p = 0 then pMultAux p fuel (n / p) + 1 else 0

/-- Multiplicity of `p` in `n`. -/
def pMult (p n : ℕ) : ℕ := pMultAux p n n

/-- The smallest `k` with `den ∣ 10 ^ k`, when one exists (i.e. when `den`
has no prime factor besides 2 and 5): the number of decimal places needed to
write a fraction with denominator `den` exactly. -/
def decExp (den : ℕ) : Option ℕ :=
  if den = 2 ^ pMult 2 den * 5 ^ pMult 5 den then some (max (pMult 2 den) (pMult 5 den))
  else none

/-- `l` with its trailing `'0'` characters removed (`%g` strips trailing
zeros from the fractional part and the scientific mantissa). -/
def stripZeros (l : Str) : Str := (l.reverse.dropWhile (· == '0')).reverse

/-- Fixed-notation rendering of `M / 10 ^ kk` as `%g` prints it: integer
part, then the fractional digits with trailing zeros stripped; no decimal
point when nothing remains of the fraction. -/
def fixed6 (M kk : ℕ) : Str :=
  if kk = 0 then natChars M
  else if stripZeros (padZeros kk (natChars (M % 10 ^ kk))) = [] then natChars (M / 10 ^ kk)
  else natChars (M / 10 ^ kk) ++ '.' :: stripZeros (padZeros kk (natChars (M % 10 ^ kk)))

/-- Scientific-notation rendering as `%g` prints it: first digit of `M`,
the remaining digits as fraction (trailing zeros stripped, point omitted
when empty), then `e`, the exponent's sign and at least two exponent
digits. -/
def sci6 (M : ℕ) (e : ℤ) : Str :=
  match natChars M with
  | [] => ['0']
  | c :: rest =>
    let frac := stripZeros rest
    (c :: (if frac = [] then [] else '.' :: frac)) ++
      'e' :: (if e < 0 then '-' else '+') :: padZeros 2 (natChars e.natAbs)

/-- Magnitude rendering of `QString::number(double)`'s default `'g'` format
with 6 significant digits, for `|v|`: write `|v| = m / 10 ^ k` exactly
(`m = |v.num| * (10 ^ k / v.den)`, the value inspected only through
`num`/`den` so the rendering is computable), round `m` to 6 significant
digits when it has more (half away from zero — the exact tie behaviour of
`%g` depends on the binary `double` and is idealised here), then choose
fixed notation when the decimal exponent lies in `[-4, 6)` and scientific
notation otherwise.  Values whose denominator is no product of 2s and 5s
cannot arise from a `double`; they render as "0". -/
def qNumberG6 (v : ℚ) : Str :=
  match decExp v.den with
  | none => ['0']
  | some k =>
    let m := v.num.natAbs * (10 ^ k / v.den)
    if m = 0 then ['0']
    else
      let cut := (natChars m).length - 6
      let M := if cut = 0 then m else (m + 5 * 10 ^ (cut - 1)) / 10 ^ cut
      let e : ℤ := ((natChars M).length : ℤ) - 1 - ((k : ℤ) - (cut : ℤ))
      if cut ≤ k ∧ -4 ≤ e ∧ e < 6 then fixed6 M (k - cut) else sci6 M e

/-- Model of `QString::number(double)`: the sign, then the `'g'`-format
6-significant-digit rendering of the magnitude. -/
def qNumberDouble (v : ℚ) : Str :=
  if v < 0 then '-' :: qNumberG6 v else qNumberG6 v

/-- `v` is rendered exactly by the `'g'`/6 format: its exact decimal form
`m / 10 ^ k` needs at most 6 significant digits (so no rounding occurs) and
its exponent lies in the fixed-notation range (no scientific notation). -/
def exactG6 (v : ℚ) : Bool :=
  match decExp v.den with
  | none => false
  | some k =>
    let m := v.num.natAbs * (10 ^ k / v.den)
    decide ((natChars m).length ≤ 6) &&
      (decide (m = 0) || decide (-4 ≤ ((natChars m).length : ℤ) - 1 - (k : ℤ)))

/-- Model of `QString::number(int)`: canonical decimal rendering. -/
def qNumberInt (v : ℤ) : Str :=
  if v < 0 then '-' :: natChars v.natAbs else natChars v.natAbs

/-- The two text fields a `MinMaxFilter` owns (`textbox_min_`,
`textbox_max_`). -/
structure MinMaxForm where
  min_text : Str
  max_text : Str
deriving DecidableEq

/-- The three text fields a `SocketsColorsFilter` (and `LinksColorsFilter`)
owns (`textbox_r_`, `textbox_g_`, `textbox_b_`). -/
structure ColorsForm where
  r_text : Str
  g_text : Str
  b_text : Str
deriving DecidableEq

/-- The one text field a `NameSearchFilter` owns (`textbox_`). -/
structure NameForm where
  text : Str
deriving DecidableEq

/-- `MinMaxFilter::FromForm` (filters.cpp:122-127): a bound is filled when
its field is non-empty; the value is the field's `toDouble()`. -/
def MinMaxFilter.FromForm (f : MinMaxForm) (data : FilterData) : FilterData :=
  { data with
    min_filled := !f.min_text.isEmpty
    min := qToDouble f.min_text
    max_filled := !f.max_text.isEmpty
    max := qToDouble f.max_text }

/-- `MinMaxFilter::ToForm` (filters.cpp:129-138): a filled bound writes
`QString::number` of its value, an unfilled one clears the field. -/
def MinMaxFilter.ToForm (data : FilterData) : MinMaxForm :=
  { min_text := if data.min_filled then qNumberDouble data.min else []
    max_text := if data.max_filled then qNumberDouble data.max else [] }

/-- `SocketsColorsFilter::FromForm` (filters.cpp:226-233). -/
def SocketsColorsFilter.FromForm (f : ColorsForm) (data : FilterData) : FilterData :=
  { data with
    r_filled := !f.r_text.isEmpty
    g_filled := !f.g_text.isEmpty
    b_filled := !f.b_text.isEmpty
    r := qToInt f.r_text
    g := qToInt f.g_text
    b := qToInt f.b_text }

/-- `SocketsColorsFilter::ToForm` (filters.cpp:235-242): a filled colour
writes `QString::number` of its value; an unfilled colour's field is left
as it stands (the source has no `else` branch here). -/
def SocketsColorsFilter.ToForm (data : FilterData) (f : ColorsForm) : ColorsForm :=
  { r_text := if data.r_filled then qNumberInt data.r else f.r_text
    g_text := if data.g_filled then qNumberInt data.g else f.g_text
    b_text := if data.b_filled then qNumberInt data.b else f.b_text }

/-- `NameSearchFilter::FromForm` (filters.cpp:57-59). -/
def NameSearchFilter.FromForm (f : NameForm) (data : FilterData) : FilterData :=
  { data with text_query := f.text }

/-- `NameSearchFilter::ToForm` (filters.cpp:61-63). -/
def NameSearchFilter.ToForm (data : FilterData) : NameForm :=
  { text := data.text_query }

theorem leads_iff (needle : Str) : ∀ hay : Str,
    leads needle hay = true ↔ ∃ post, hay = needle ++ post := by
  induction needle with
  | nil =>
    intro hay
    simp [leads]
  | cons a as ih =>
    intro hay
    cases hay with
    | nil => simp [leads]
    | cons b bs =>
      simp only [leads, Bool.and_eq_true, beq_iff_eq, ih, List.cons_append, List.cons_eq_cons]
      constructor
      · rintro ⟨hab, post, hpost⟩
        exact ⟨post, hab.symm, hpost⟩
      · rintro ⟨post, hba, hpost⟩
        exact ⟨hba.symm, post, hpost⟩

theorem containsSub_cons (needle : Str) (c : Char) (rest : Str) :
    ContainsSub needle (c :: rest) ↔
      (∃ post, c :: rest = needle ++ post) ∨ ContainsSub needle rest := by
  constructor
  · rintro ⟨pre, post, h⟩
    cases pre with
    | nil => exact Or.inl ⟨post, h⟩
    | cons p ps =>
      simp only [List.cons_append, List.cons_eq_cons] at h
      exact Or.inr ⟨ps, post, h.2⟩
  · rintro (⟨post, h⟩ | ⟨pre, post, h⟩)
    · exact ⟨[], post, h⟩
    · exact ⟨c :: pre, post, by rw [h]; rfl⟩

theorem strFind_iff (needle : Str) : ∀ hay : Str,
    strFind needle hay = true ↔ ContainsSub needle hay := by
  intro hay
  induction hay with
  | nil =>
    simp only [strFind, leads_iff, ContainsSub]
    constructor
    · rintro ⟨post, h⟩
      exact ⟨[], post, h⟩
    · rintro ⟨pre, post, h⟩
      rcases List.append_eq_nil.mp ((List.append_assoc pre needle post ▸ h).symm) with ⟨h1, h2⟩
      rcases List.append_eq_nil.mp h2 with ⟨h3, h4⟩
      exact ⟨[], by simp [h3]⟩
  | cons c rest ih =>
    simp only [strFind, Bool.or_eq_true, leads_iff, ih, containsSub_cons]

theorem strFind_nil_needle (hay : Str) : strFind [] hay = true := by
  cases hay <;> simp [strFind, leads]

/-- C6: `NameSearchFilter::Matches` returns true iff the item's display
name, case-folded, contains the case-folded `text_query` as a substring;
in particular an empty query matches every item. -/
theorem C6_nameSearch_substring (name : Str) (d : FilterData) :
    (NameSearchFilter.Matches name d = true ↔
      ContainsSub (d.text_query.map cToLower) (name.map cToLower)) ∧
    (d.text_query = [] → NameSearchFilter.Matches name d = true) := by
  constructor
  · exact strFind_iff _ _
  · intro h
    simp only [NameSearchFilter.Matches, h, List.map_nil]
    exact strFind_nil_needle _

/-- C2: with the underlying value present, `MinMaxFilter::Matches` is true
iff every filled bound is satisfied, both bounds inclusive. -/
theorem C2_minMax_present (v : ℚ) (d : FilterData) :
    MinMaxFilter.Matches (some v) d = true ↔
      ((d.min_filled = true → d.min ≤ v) ∧ (d.max_filled = true → v ≤ d.max)) := by
  cases hmin : d.min_filled <;> cases hmax : d.max_filled <;>
    simp [MinMaxFilter.Matches, hmin, hmax, not_lt]

/-- C3: with the underlying value absent, `MinMaxFilter::Matches` is true
iff neither bound is filled. -/
theorem C3_minMax_absent (d : FilterData) :
    MinMaxFilter.Matches none d = true ↔
      (d.min_filled = false ∧ d.max_filled = false) := by
  cases hmin : d.min_filled <;> cases hmax : d.max_filled <;>
    simp [MinMaxFilter.Matches, hmin, hmax]

/-- C4: `SocketsColorsFilter::Matches` is unconditionally true with no
colour requirement filled; otherwise it is true iff the white sockets cover
the colour deficit computed once from the item's total per-colour counts,
an unfilled colour contributing a need of 0. -/
theorem C4_socketsColors (sr sg sb sw : ℤ) (d : FilterData) :
    ((d.r_filled = false ∧ d.g_filled = false ∧ d.b_filled = false) →
      SocketsColorsFilter.Matches sr sg sb sw d = true) ∧
    ((d.r_filled = true ∨ d.g_filled = true ∨ d.b_filled = true) →
      (SocketsColorsFilter.Matches sr sg sb sw d = true ↔
        max 0 ((if d.r_filled then d.r else 0) - sr) +
          max 0 ((if d.g_filled then d.g else 0) - sg) +
          max 0 ((if d.b_filled then d.b else 0) - sb) ≤ sw)) := by
  cases hr : d.r_filled <;> cases hg : d.g_filled <;> cases hb : d.b_filled <;>
    simp [SocketsColorsFilter.Matches, SocketsColorsFilter.Check, hr, hg, hb]

/-- C1: at a group boundary the source resets only `got_r`, `got_g`,
`got_b` (filters.cpp:289); `got_w` carries over.  On the item
`[{group 0, attr "G"}, {group 1, attr "S"}]` with requirement r = 2 the
filter answers `true`, although `Check` fails on the counts of every
contiguous group taken by itself (group 0 holds one white socket, group 1
one red socket): the evaluation that succeeds uses group 0's white socket
for group 1. -/
theorem C1_linksColors_white_not_reset :
    LinksColorsFilter.Matches [⟨0, ['G']⟩, ⟨1, ['S']⟩]
      { text_query := [], min := 0, max := 0, min_filled := false, max_filled := false,
        r := 2, g := 0, b := 0, r_filled := true, g_filled := false, b_filled := false } = true ∧
    (groupRuns [⟨0, ['G']⟩, ⟨1, ['S']⟩]).map (runCheck 2 0 0) = [false, false] := by
  decide

theorem linksLoop_eq_evals_any (nr ng nb : ℤ) : ∀ (l : List ItemSocket) (cur gr gg gb gw : ℤ),
    linksLoop nr ng nb cur gr gg gb gw l = (linksEvals nr ng nb cur gr gg gb gw l).any id := by
  intro l
  induction l with
  | nil => intro cur gr gg gb gw; simp [linksLoop, linksEvals]
  | cons s rest ih =>
    intro cur gr gg gb gw
    by_cases hg : cur = s.group
    · simp only [linksLoop, linksEvals, if_pos hg]
      exact ih _ _ _ _ _
    · cases hc : SocketsColorsFilter.Check nr ng nb gr gg gb gw with
      | true => simp [linksLoop, linksEvals, if_neg hg, hc]
      | false =>
        simp only [linksLoop, linksEvals, if_neg hg, hc, if_false, Bool.false_eq_true,
          List.any_cons, id, Bool.false_or]
        exact ih _ _ _ _ _

theorem linksEvals_ne_nil (nr ng nb : ℤ) : ∀ (l : List ItemSocket) (cur gr gg gb gw : ℤ),
    linksEvals nr ng nb cur gr gg gb gw l ≠ [] := by
  intro l
  induction l with
  | nil => intro cur gr gg gb gw; simp [linksEvals]
  | cons s rest ih =>
    intro cur gr gg gb gw
    by_cases hg : cur = s.group
    · simp only [linksEvals, if_pos hg]
      exact ih _ _ _ _ _
    · simp [linksEvals, if_neg hg]

theorem linksEvals_getLast (nr ng nb : ℤ) : ∀ (l : List ItemSocket) (cur gr gg gb gw : ℤ),
    (linksEvals nr ng nb cur gr gg gb gw l).getLast? =
      some (SocketsColorsFilter.Check nr ng nb
        (linksFinalCounts cur gr gg gb gw l).r (linksFinalCounts cur gr gg gb gw l).g
        (linksFinalCounts cur gr gg gb gw l).b (linksFinalCounts cur gr gg gb gw l).w) := by
  intro l
  induction l with
  | nil => intro cur gr gg gb gw; simp [linksEvals, linksFinalCounts]
  | cons s rest ih =>
    intro cur gr gg gb gw
    by_cases hg : cur = s.group
    · simp only [linksEvals, linksFinalCounts, if_pos hg]
      exact ih _ _ _ _ _
    · simp only [linksEvals, linksFinalCounts, if_neg hg]
      obtain ⟨b, l', heq⟩ :=
        List.exists_cons_of_ne_nil
          (linksEvals_ne_nil nr ng nb rest s.group (socketDelta s.attr).r (socketDelta s.attr).g
            (socketDelta s.attr).b (gw + (socketDelta s.attr).w))
      rw [heq, List.getLast?_cons_cons, ← heq]
      exact ih _ _ _ _ _

/-- C5 counterexample: the filter can answer `true` although no contiguous
group satisfies `Check` on its own counts — with requirement r = 3, two
white sockets in group 0 and one red socket in group 1, both per-group
evaluations fail, yet the final evaluation sees group 1's red socket
together with group 0's two whites (`got_w` is never reset) and succeeds. -/
theorem C5_some_group_refuted :
    LinksColorsFilter.Matches [⟨0, ['G']⟩, ⟨0, ['G']⟩, ⟨1, ['S']⟩]
      { text_query := [], min := 0, max := 0, min_filled := false, max_filled := false,
        r := 3, g := 0, b := 0, r_filled := true, g_filled := false, b_filled := false } = true ∧
    (groupRuns [⟨0, ['G']⟩, ⟨0, ['G']⟩, ⟨1, ['S']⟩]).map (runCheck 3 0 0) = [false, false] := by
  decide

/-- C5 (amended): with a colour requirement filled, the loop's `Check`
evaluations are one per group boundary plus one final evaluation after the
input is exhausted — so the last open group is always evaluated, on the
`got` counters as the loop leaves them (its own r/g/b counts, the white
count accumulated since the start) — and the filter returns true iff some
of those evaluations succeeds. -/
theorem C5_final_group_never_skipped (d : FilterData) (sockets : List ItemSocket)
    (nr ng nb : ℤ)
    (h : d.r_filled = true ∨ d.g_filled = true ∨ d.b_filled = true)
    (hnr : nr = if d.r_filled then d.r else 0)
    (hng : ng = if d.g_filled then d.g else 0)
    (hnb : nb = if d.b_filled then d.b else 0) :
    (LinksColorsFilter.Matches sockets d = true ↔
      (linksEvals nr ng nb 0 0 0 0 0 sockets).any id = true) ∧
    (linksEvals nr ng nb 0 0 0 0 0 sockets).getLast? =
      some (SocketsColorsFilter.Check nr ng nb
        (linksFinalCounts 0 0 0 0 0 sockets).r (linksFinalCounts 0 0 0 0 0 sockets).g
        (linksFinalCounts 0 0 0 0 0 sockets).b (linksFinalCounts 0 0 0 0 0 sockets).w) := by
  subst hnr hng hnb
  constructor
  · have hflag : (!d.r_filled && !d.g_filled && !d.b_filled) = false := by
      rcases h with h | h | h <;> simp [h]
    simp only [LinksColorsFilter.Matches, hflag, Bool.false_eq_true, if_false]
    rw [linksLoop_eq_evals_any]
  · exact linksEvals_getLast _ _ _ _ _ _ _ _ _

/-- C5 witness: the amended statement at a one-socket item and a filled
red requirement of 1. -/
theorem C5_witness :
    (LinksColorsFilter.Matches [⟨0, ['S']⟩]
      { text_query := [], min := 0, max := 0, min_filled := false, max_filled := false,
        r := 1, g := 0, b := 0, r_filled := true, g_filled := false, b_filled := false } = true ↔
      (linksEvals 1 0 0 0 0 0 0 0 [⟨0, ['S']⟩]).any id = true) ∧
    (linksEvals 1 0 0 0 0 0 0 0 [⟨0, ['S']⟩]).getLast? =
      some (SocketsColorsFilter.Check 1 0 0
        (linksFinalCounts 0 0 0 0 0 [⟨0, ['S']⟩]).r (linksFinalCounts 0 0 0 0 0 [⟨0, ['S']⟩]).g
        (linksFinalCounts 0 0 0 0 0 [⟨0, ['S']⟩]).b
        (linksFinalCounts 0 0 0 0 0 [⟨0, ['S']⟩]).w) :=
  C5_final_group_never_skipped
    { text_query := [], min := 0, max := 0, min_filled := false, max_filled := false,
      r := 1, g := 0, b := 0, r_filled := true, g_filled := false, b_filled := false }
    [⟨0, ['S']⟩] 1 0 0 (Or.inl rfl) rfl rfl rfl

/-- C7: for `SimplePropertyFilter` the value is absent exactly when the key
is missing from the property mapping; a present key's string is converted
with `std::stod`, whose result is the value used, and a non-numeric string
makes the whole evaluation fail with the propagating parse error instead
of being treated as absent. -/
theorem C7_simpleProperty_parse (props : List (Str × Str)) (key : Str) (d : FilterData) :
    (SimplePropertyFilter.IsValuePresent props key = false ↔
      List.lookup key props = none) ∧
    (∀ s, List.lookup key props = some s →
      (∀ v, stod s = some v →
        SimplePropertyFilter.Matches props key d = .ok (MinMaxFilter.Matches (some v) d)) ∧
      (stod s = none →
        SimplePropertyFilter.Matches props key d = .error .invalidArgument)) ∧
    (List.lookup key props = none →
      SimplePropertyFilter.Matches props key d = .ok (MinMaxFilter.Matches none d)) := by
  cases hl : List.lookup key props with
  | none =>
    refine ⟨by simp [SimplePropertyFilter.IsValuePresent, hl], ?_, ?_⟩
    · intro s hs
      simp [hl] at hs
    · intro _
      simp [SimplePropertyFilter.Matches, hl]
  | some s0 =>
    refine ⟨by simp [SimplePropertyFilter.IsValuePresent, hl], ?_, ?_⟩
    · intro s hs
      injection hs with hs
      subst hs
      constructor
      · intro v hv
        simp [SimplePropertyFilter.Matches, hl, hv]
      · intro hv
        simp [SimplePropertyFilter.Matches, hl, hv]
    · intro hnone
      exact absurd hnone (by simp)

/-- C8: `RequiredStatFilter`'s value is always present; `GetValue` returns
the requirement mapping's entry under the property name when present, and
0 when the key is missing. -/
theorem C8_requiredStat_default_zero (reqs : List (Str × ℚ)) (key : Str) :
    RequiredStatFilter.IsValuePresent = true ∧
    (∀ v, List.lookup key reqs = some v → RequiredStatFilter.GetValue reqs key = v) ∧
    (List.lookup key reqs = none → RequiredStatFilter.GetValue reqs key = 0) := by
  refine ⟨rfl, ?_, ?_⟩
  · intro v hv
    simp [RequiredStatFilter.GetValue, hv]
  · intro h
    simp [RequiredStatFilter.GetValue, h]

/-- C10 counterexample: on a freshly constructed `FilterData`,
`SimplePropertyFilter::Matches` does not return true for every item — on an
item whose property string is non-numeric it propagates the `std::stod`
parse error instead of returning. -/
theorem C10_fresh_parse_error :
    SimplePropertyFilter.Matches [(['Q'], ['x'])] ['Q'] (freshFilterData 0 0 0 0 0) =
      .error .invalidArgument := by
  rfl

/-- C10 (amended): a freshly constructed `FilterData` (empty query, all
filled flags false, numeric fields arbitrary garbage) imposes no
constraint: every variant's `Matches` returns true on every item — except
that `SimplePropertyFilter`, whose `GetValue` runs `std::stod` on any
present property string before the flags are consulted, either returns
true or propagates a parse error; it never returns false. -/
theorem C10_fresh_filter_matches_all (minv maxv : ℚ) (rv gv bv : ℤ) (name : Str)
    (v? : Option ℚ) (sr sg sb sw : ℤ) (sockets : List ItemSocket)
    (reqs : List (Str × ℚ)) (props : List (Str × Str)) (key prop : Str) :
    NameSearchFilter.Matches name (freshFilterData minv maxv rv gv bv) = true ∧
    MinMaxFilter.Matches v? (freshFilterData minv maxv rv gv bv) = true ∧
    RequiredStatFilter.Matches reqs key (freshFilterData minv maxv rv gv bv) = true ∧
    SocketsColorsFilter.Matches sr sg sb sw (freshFilterData minv maxv rv gv bv) = true ∧
    LinksColorsFilter.Matches sockets (freshFilterData minv maxv rv gv bv) = true ∧
    (SimplePropertyFilter.Matches props prop (freshFilterData minv maxv rv gv bv) = .ok true ∨
      SimplePropertyFilter.Matches props prop (freshFilterData minv maxv rv gv bv) =
        .error .invalidArgument) := by
  have hmm : ∀ w? : Option ℚ, MinMaxFilter.Matches w? (freshFilterData minv maxv rv gv bv) = true := by
    intro w?
    cases w? <;> simp [MinMaxFilter.Matches, freshFilterData]
  refine ⟨?_, hmm v?, hmm _, ?_, ?_, ?_⟩
  · simp only [NameSearchFilter.Matches, freshFilterData, List.map_nil]
    exact strFind_nil_needle _
  · simp [SocketsColorsFilter.Matches, freshFilterData]
  · simp [LinksColorsFilter.Matches, freshFilterData]
  · cases hl : List.lookup prop props with
    | none => exact Or.inl (by simp [SimplePropertyFilter.Matches, hl, hmm])
    | some s =>
      cases hv : stod s with
      | none => exact Or.inr (by simp [SimplePropertyFilter.Matches, hl, hv])
      | some v => exact Or.inl (by simp [SimplePropertyFilter.Matches, hl, hv, hmm])

theorem digitVal_digitChar (d : ℕ) (h : d < 10) : digitVal (digitChar d) = d := by
  interval_cases d <;> rfl

theorem isDigit_digitChar (d : ℕ) (h : d < 10) : (digitChar d).isDigit = true := by
  interval_cases d <;> rfl

theorem digitsVal_append_last (l : Str) (c : Char) :
    digitsVal (l ++ [c]) = 10 * digitsVal l + digitVal c := by
  simp [digitsVal, List.foldl_append]

theorem natCharsAux_spec : ∀ fuel n, n ≤ fuel →
    digitsVal (natCharsAux fuel n) = n ∧ (natCharsAux fuel n).all Char.isDigit = true := by
  intro fuel
  induction fuel with
  | zero =>
    intro n hn
    have : n = 0 := Nat.le_zero.mp hn
    subst this
    exact ⟨rfl, rfl⟩
  | succ f ih =>
    intro n hn
    cases n with
    | zero => exact ⟨rfl, rfl⟩
    | succ m =>
      have h1 : (m + 1) / 10 ≤ f := by
        have := Nat.div_lt_self (Nat.succ_pos m) (by norm_num : (1 : ℕ) < 10)
        omega
      obtain ⟨ihv, ihd⟩ := ih _ h1
      have heq : natCharsAux (f + 1) (m + 1) =
          natCharsAux f ((m + 1) / 10) ++ [digitChar ((m + 1) % 10)] := rfl
      constructor
      · rw [heq, digitsVal_append_last, ihv,
          digitVal_digitChar _ (Nat.mod_lt _ (by norm_num))]
        omega
      · rw [heq, List.all_append, ihd]
        simp [isDigit_digitChar _ (Nat.mod_lt _ (by norm_num))]

theorem natChars_val (n : ℕ) : digitsVal (natChars n) = n := by
  by_cases h : n = 0
  · subst h; rfl
  · rw [natChars, if_neg h]
    exact (natCharsAux_spec n n le_rfl).1

theorem natChars_all_digits (n : ℕ) : (natChars n).all Char.isDigit = true := by
  by_cases h : n = 0
  · subst h; rfl
  · rw [natChars, if_neg h]
    exact (natCharsAux_spec n n le_rfl).2

theorem natChars_ne_nil (n : ℕ) : natChars n ≠ [] := by
  by_cases h : n = 0
  · subst h; simp [natChars]
  · rw [natChars, if_neg h]
    obtain ⟨m, rfl⟩ := Nat.exists_eq_succ_of_ne_zero h
    have heq : natCharsAux (m + 1) (m + 1) =
        natCharsAux m ((m + 1) / 10) ++ [digitChar ((m + 1) % 10)] := rfl
    rw [heq]
    simp

theorem natCharsAux_length : ∀ fuel n k, n < 10 ^ k → (natCharsAux fuel n).length ≤ k := by
  intro fuel
  induction fuel with
  | zero => intro n k _; simp [natCharsAux]
  | succ f ih =>
    intro n k hn
    cases n with
    | zero => simp [natCharsAux]
    | succ m =>
      cases k with
      | zero => simp at hn
      | succ j =>
        have hdiv : (m + 1) / 10 < 10 ^ j := by
          rw [Nat.div_lt_iff_lt_mul (by norm_num : (0 : ℕ) < 10)]
          calc m + 1 < 10 ^ (j + 1) := hn
            _ = 10 ^ j * 10 := by ring
        have heq : natCharsAux (f + 1) (m + 1) =
            natCharsAux f ((m + 1) / 10) ++ [digitChar ((m + 1) % 10)] := rfl
        rw [heq, List.length_append]
        have := ih ((m + 1) / 10) j hdiv
        simp only [List.length_cons, List.length_nil]
        omega

theorem natChars_length (n k : ℕ) (hk : 1 ≤ k) (hn : n < 10 ^ k) :
    (natChars n).length ≤ k := by
  by_cases h : n = 0
  · subst h; simpa [natChars] using hk
  · rw [natChars, if_neg h]
    exact natCharsAux_length n n k hn

theorem digitsVal_replicate_zero : ∀ m : ℕ, ∀ l : Str,
    digitsVal (List.replicate m '0' ++ l) = digitsVal l := by
  intro m
  induction m with
  | zero => intro l; rfl
  | succ k ih =>
    intro l
    have : List.replicate (k + 1) '0' ++ l = '0' :: (List.replicate k '0' ++ l) := by
      simp [List.replicate_succ]
    rw [this]
    show List.foldl (fun a c => 10 * a + digitVal c) (10 * 0 + digitVal '0')
      (List.replicate k '0' ++ l) = digitsVal l
    have h0 : 10 * 0 + digitVal '0' = 0 := rfl
    rw [h0]
    exact ih l

theorem digitsVal_padZeros (k : ℕ) (l : Str) : digitsVal (padZeros k l) = digitsVal l :=
  digitsVal_replicate_zero _ _

theorem padZeros_length (k : ℕ) (l : Str) (h : l.length ≤ k) : (padZeros k l).length = k := by
  simp [padZeros]
  omega

theorem padZeros_all_digits (k : ℕ) (l : Str) (h : l.all Char.isDigit = true) :
    (padZeros k l).all Char.isDigit = true := by
  rw [padZeros, List.all_append, h]
  have : (List.replicate (k - l.length) '0').all Char.isDigit = true := by
    rw [List.all_eq_true]
    intro c hc
    rw [List.eq_of_mem_replicate hc]
    rfl
  rw [this]
  rfl

theorem takeWhile_all_self {p : Char → Bool} : ∀ l : Str, l.all p = true →
    l.takeWhile p = l ∧ l.dropWhile p = [] := by
  intro l
  induction l with
  | nil => intro _; exact ⟨rfl, rfl⟩
  | cons a as ih =>
    intro h
    rw [List.all_cons, Bool.and_eq_true] at h
    obtain ⟨ha, has⟩ := h
    obtain ⟨iht, ihd⟩ := ih has
    constructor
    · rw [List.takeWhile_cons, ha]
      simp [iht]
    · rw [List.dropWhile_cons, ha]
      simpa using ihd

theorem takeWhile_all_append {p : Char → Bool} : ∀ (A : Str) (c : Char) (B : Str),
    A.all p = true → p c = false →
    (A ++ c :: B).takeWhile p = A ∧ (A ++ c :: B).dropWhile p = c :: B := by
  intro A
  induction A with
  | nil =>
    intro c B _ hc
    constructor
    · rw [List.nil_append, List.takeWhile_cons, hc]
      simp
    · rw [List.nil_append, List.dropWhile_cons, hc]
      simp
  | cons a as ih =>
    intro c B hall hc
    rw [List.all_cons, Bool.and_eq_true] at hall
    obtain ⟨ha, has⟩ := hall
    obtain ⟨iht, ihd⟩ := ih c B has hc
    constructor
    · rw [List.cons_append, List.takeWhile_cons, ha]
      simp [iht]
    · rw [List.cons_append, List.dropWhile_cons, ha]
      simpa using ihd

theorem qParseUnsigned_all_digits (l : Str) (hne : l ≠ []) (hall : l.all Char.isDigit = true) :
    qParseUnsigned l = some ((digitsVal l : ℚ)) := by
  obtain ⟨ht, hd⟩ := takeWhile_all_self l hall
  simp only [qParseUnsigned, ht, hd, if_neg hne]

theorem qParseUnsigned_decimal (A B : Str) (hAne : A ≠ [])
    (hA : A.all Char.isDigit = true) (hB : B.all Char.isDigit = true) :
    qParseUnsigned (A ++ '.' :: B) =
      some ((digitsVal A : ℚ) + (digitsVal B : ℚ) / 10 ^ B.length) := by
  obtain ⟨ht, hd⟩ := takeWhile_all_append A '.' B hA (by rfl)
  simp only [qParseUnsigned, ht, hd]
  rw [if_pos ⟨hB, fun hcon => hAne hcon.1⟩]

theorem pMultAux_eq (p : ℕ) (hp : 2 ≤ p) :
    ∀ fuel a q, p ^ a * q ≤ fuel → ¬ p ∣ q → q ≠ 0 → pMultAux p fuel (p ^ a * q) = a := by
  intro fuel
  induction fuel with
  | zero =>
    intro a q hle hnd hq
    have hpos : 0 < p ^ a * q :=
      Nat.mul_pos (pow_pos (by omega) a) (Nat.pos_of_ne_zero hq)
    omega
  | succ f ih =>
    intro a q hle hnd hq
    cases a with
    | zero =>
      have hcond : ¬(2 ≤ p ∧ p ^ 0 * q ≠ 0 ∧ p ^ 0 * q % p = 0) := by
        rintro ⟨_, _, hmod⟩
        apply hnd
        have hq' : q % p = 0 := by simpa using hmod
        exact Nat.dvd_of_mod_eq_zero hq'
      show (if 2 ≤ p ∧ p ^ 0 * q ≠ 0 ∧ p ^ 0 * q % p = 0 then
          pMultAux p f (p ^ 0 * q / p) + 1 else 0) = 0
      rw [if_neg hcond]
    | succ a' =>
      have hpos : 0 < p := by omega
      have hne : p ^ (a' + 1) * q ≠ 0 :=
        Nat.mul_ne_zero (pow_ne_zero _ (by omega)) hq
      have hdvdn : p ^ (a' + 1) * q % p = 0 := by
        have h0 : p ^ (a' + 1) * q = p * (p ^ a' * q) := by ring
        rw [h0, Nat.mul_mod_right]
      show (if 2 ≤ p ∧ p ^ (a' + 1) * q ≠ 0 ∧ p ^ (a' + 1) * q % p = 0 then
          pMultAux p f (p ^ (a' + 1) * q / p) + 1 else 0) = a' + 1
      rw [if_pos ⟨hp, hne, hdvdn⟩]
      have hdiv : p ^ (a' + 1) * q / p = p ^ a' * q := by
        have h1 : p ^ (a' + 1) * q = p * (p ^ a' * q) := by ring
        rw [h1, Nat.mul_div_cancel_left _ hpos]
      rw [hdiv]
      have hle' : p ^ a' * q ≤ f := by
        have h2 : p ^ (a' + 1) * q = p * (p ^ a' * q) := by ring
        have h3 : 0 < p ^ a' * q := Nat.mul_pos (pow_pos hpos a') (Nat.pos_of_ne_zero hq)
        have h4 : 2 * (p ^ a' * q) ≤ p * (p ^ a' * q) := Nat.mul_le_mul_right _ hp
        omega
      rw [ih a' q hle' hnd hq]

theorem pMult_eq (p a q : ℕ) (hp : 2 ≤ p) (hnd : ¬ p ∣ q) (hq : q ≠ 0) :
    pMult p (p ^ a * q) = a :=
  pMultAux_eq p hp (p ^ a * q) a q le_rfl hnd hq

theorem decExp_dvd (den k : ℕ) (h : decExp den = some k) : den ∣ 10 ^ k := by
  rw [decExp] at h
  split_ifs at h with hcond
  injection h with h
  subst h
  rw [show (10 : ℕ) = 2 * 5 from rfl, mul_pow]
  conv_lhs => rw [hcond]
  exact mul_dvd_mul (pow_dvd_pow 2 (le_max_left _ _)) (pow_dvd_pow 5 (le_max_right _ _))

theorem decExp_some (den L : ℕ) (h : den ∣ 10 ^ L) :
    ∃ k, decExp den = some k ∧ den ∣ 10 ^ k := by
  have h10 : (10 : ℕ) ^ L = 2 ^ L * 5 ^ L := by
    rw [show (10 : ℕ) = 2 * 5 from rfl, mul_pow]
  rw [h10] at h
  obtain ⟨y, z, hy, hz, hyz⟩ := Nat.dvd_mul.mp h
  obtain ⟨a, _, rfl⟩ := (Nat.dvd_prime_pow Nat.prime_two).mp hy
  obtain ⟨b, _, rfl⟩ := (Nat.dvd_prime_pow Nat.prime_five).mp hz
  have h2 : pMult 2 den = a := by
    rw [← hyz]
    refine pMult_eq 2 a (5 ^ b) le_rfl ?_ (pow_ne_zero b (by norm_num))
    intro hdvd
    have h5d := Nat.Prime.dvd_of_dvd_pow Nat.prime_two hdvd
    norm_num at h5d
  have h5 : pMult 5 den = b := by
    rw [← hyz, mul_comm]
    refine pMult_eq 5 b (2 ^ a) (by norm_num) ?_ (pow_ne_zero a (by norm_num))
    intro hdvd
    have h2d := Nat.Prime.dvd_of_dvd_pow Nat.prime_five hdvd
    norm_num at h2d
  have hcond : den = 2 ^ pMult 2 den * 5 ^ pMult 5 den := by rw [h2, h5, hyz]
  exact ⟨max (pMult 2 den) (pMult 5 den), by rw [decExp, if_pos hcond],
    decExp_dvd den _ (by rw [decExp, if_pos hcond])⟩

theorem rat_mul_pow_den (v : ℚ) (K : ℕ) (hdvd : (v.den : ℕ) ∣ 10 ^ K) :
    (v * 10 ^ K).den = 1 ∧ ((v * 10 ^ K).num : ℚ) = v * 10 ^ K := by
  obtain ⟨e, he⟩ := hdvd
  have hden0 : ((v.den : ℚ)) ≠ 0 := by
    exact_mod_cast v.den_nz
  have heQ : ((10 : ℚ)) ^ K = (v.den : ℚ) * (e : ℚ) := by
    exact_mod_cast congrArg (fun n : ℕ => (n : ℚ)) he
  have key : v * 10 ^ K = ((v.num * e : ℤ) : ℚ) := by
    conv_lhs => rw [← Rat.num_div_den v]
    rw [heQ]
    push_cast
    field_simp
    ring
  refine ⟨?_, ?_⟩
  · rw [key, Rat.den_intCast]
  · rw [key, Rat.num_intCast]

theorem qParseUnsigned_den (s : Str) (v : ℚ) (h : qParseUnsigned s = some v) :
    ∃ L, (v.den : ℕ) ∣ 10 ^ L := by
  simp only [qParseUnsigned] at h
  split at h
  · split_ifs at h
    refine ⟨0, ?_⟩
    have hv : v = ((digitsVal (s.takeWhile Char.isDigit) : ℚ)) := by
      injection h with h'
      exact h'.symm
    rw [hv, Rat.den_natCast]
    exact Nat.one_dvd _
  · next fp _ =>
    split_ifs at h
    have hv : v = (digitsVal (s.takeWhile Char.isDigit) : ℚ) +
        (digitsVal fp : ℚ) / 10 ^ fp.length := by
      injection h with h'
      exact h'.symm
    refine ⟨fp.length, ?_⟩
    have h10 : ((10 : ℚ)) ^ fp.length ≠ 0 := by positivity
    have hrepr : v =
        ((digitsVal (s.takeWhile Char.isDigit) * 10 ^ fp.length + digitsVal fp : ℤ) : ℚ) /
          ((10 ^ fp.length : ℤ) : ℚ) := by
      rw [hv]
      push_cast
      field_simp
    have hdvd : (v.den : ℤ) ∣ ((10 : ℤ) ^ fp.length) := by
      rw [hrepr, ← Rat.divInt_eq_div]
      exact Rat.den_dvd _ _
    exact_mod_cast hdvd
  · exact absurd h (by simp)

theorem qParseDouble_den (s : Str) (v : ℚ) (h : qParseDouble s = some v) :
    ∃ L, (v.den : ℕ) ∣ 10 ^ L := by
  simp only [qParseDouble] at h
  split at h
  · exact qParseUnsigned_den _ _ h
  · split_ifs at h with h1 h2
    · rw [Option.map_eq_some'] at h
      obtain ⟨w, hw, hvw⟩ := h
      obtain ⟨L, hL⟩ := qParseUnsigned_den _ _ hw
      refine ⟨L, ?_⟩
      have hvd : v.den = w.den := by
        rw [← hvw]
        rfl
      rw [hvd]
      exact hL
    · exact qParseUnsigned_den _ _ h
    · exact qParseUnsigned_den _ _ h

theorem stripZeros_decomp (l : Str) :
    ∃ t, l = stripZeros l ++ List.replicate t '0' := by
  refine ⟨(l.reverse.takeWhile (· == '0')).length, ?_⟩
  have h1 : l = (l.reverse.takeWhile (· == '0') ++ l.reverse.dropWhile (· == '0')).reverse := by
    rw [List.takeWhile_append_dropWhile, List.reverse_reverse]
  have h3 : ∀ b ∈ l.reverse.takeWhile (· == '0'), b = '0' := by
    intro b hb
    have hmem := List.mem_takeWhile_imp hb
    simpa using hmem
  have h2 : (l.reverse.takeWhile (· == '0')).reverse =
      List.replicate (l.reverse.takeWhile (· == '0')).length '0' := by
    conv_lhs => rw [List.eq_replicate_of_mem h3]
    rw [List.reverse_replicate]
  conv_lhs => rw [h1]
  rw [List.reverse_append, h2]
  rfl

theorem digitsVal_append_replicate (l : Str) : ∀ t : ℕ,
    digitsVal (l ++ List.replicate t '0') = digitsVal l * 10 ^ t := by
  intro t
  induction t with
  | zero => rw [List.replicate_zero, List.append_nil, pow_zero, mul_one]
  | succ u ih =>
    rw [List.replicate_succ', ← List.append_assoc, digitsVal_append_last, ih,
      show digitVal '0' = 0 from rfl]
    ring

theorem stripZeros_all_digits (l : Str) (h : l.all Char.isDigit = true) :
    (stripZeros l).all Char.isDigit = true := by
  obtain ⟨t, ht⟩ := stripZeros_decomp l
  rw [ht, List.all_append, Bool.and_eq_true] at h
  exact h.1

theorem natChars_head (n : ℕ) : ∃ c cs, natChars n = c :: cs ∧ c.isDigit = true := by
  obtain ⟨c, cs, heq⟩ := List.exists_cons_of_ne_nil (natChars_ne_nil n)
  have hall := natChars_all_digits n
  rw [heq, List.all_cons, Bool.and_eq_true] at hall
  exact ⟨c, cs, heq, hall.1⟩

theorem qParseUnsigned_fixed6 (M kk : ℕ) :
    qParseUnsigned (fixed6 M kk) = some ((M : ℚ) / 10 ^ kk) := by
  by_cases hk : kk = 0
  · subst hk
    rw [fixed6, if_pos rfl,
      qParseUnsigned_all_digits _ (natChars_ne_nil _) (natChars_all_digits _), natChars_val]
    norm_num
  · have hpow : (0 : ℕ) < 10 ^ kk := by positivity
    have hlen0 : (natChars (M % 10 ^ kk)).length ≤ kk :=
      natChars_length _ _ (by omega) (Nat.mod_lt _ hpow)
    have hF0len : (padZeros kk (natChars (M % 10 ^ kk))).length = kk :=
      padZeros_length _ _ hlen0
    have hF0dig : (padZeros kk (natChars (M % 10 ^ kk))).all Char.isDigit = true :=
      padZeros_all_digits _ _ (natChars_all_digits _)
    have hF0val : digitsVal (padZeros kk (natChars (M % 10 ^ kk))) = M % 10 ^ kk := by
      rw [digitsVal_padZeros, natChars_val]
    obtain ⟨t, ht⟩ := stripZeros_decomp (padZeros kk (natChars (M % 10 ^ kk)))
    have hval : digitsVal (stripZeros (padZeros kk (natChars (M % 10 ^ kk)))) * 10 ^ t =
        M % 10 ^ kk := by
      conv_rhs => rw [← hF0val, ht, digitsVal_append_replicate]
    have hlen : (stripZeros (padZeros kk (natChars (M % 10 ^ kk)))).length + t = kk := by
      have hlen2 : (padZeros kk (natChars (M % 10 ^ kk))).length =
          (stripZeros (padZeros kk (natChars (M % 10 ^ kk)))).length + t := by
        conv_lhs => rw [ht]
        rw [List.length_append, List.length_replicate]
      omega
    have h10 : ((10 : ℚ)) ^ kk ≠ 0 := by positivity
    have hdm : 10 ^ kk * (M / 10 ^ kk) + M % 10 ^ kk = M := Nat.div_add_mod M _
    by_cases hF : stripZeros (padZeros kk (natChars (M % 10 ^ kk))) = []
    · have hmod : M % 10 ^ kk = 0 := by
        rw [← hval, hF]
        simp [digitsVal]
      rw [fixed6, if_neg hk, if_pos hF,
        qParseUnsigned_all_digits _ (natChars_ne_nil _) (natChars_all_digits _), natChars_val]
      congr 1
      rw [eq_div_iff h10]
      have hcast : ((10 ^ kk * (M / 10 ^ kk) : ℕ) : ℚ) = ((M : ℕ) : ℚ) := by
        rw [show 10 ^ kk * (M / 10 ^ kk) = M by omega]
      push_cast at hcast
      linear_combination hcast
    · rw [fixed6, if_neg hk, if_neg hF,
        qParseUnsigned_decimal _ _ (natChars_ne_nil _) (natChars_all_digits _)
          (stripZeros_all_digits _ hF0dig), natChars_val]
      congr 1
      rw [show (stripZeros (padZeros kk (natChars (M % 10 ^ kk)))).length = kk - t by omega]
      rw [eq_div_iff h10, add_mul]
      have hpowsplit : ((10 : ℚ)) ^ kk = 10 ^ (kk - t) * 10 ^ t := by
        rw [← pow_add]
        congr 1
        omega
      have h2 : (digitsVal (stripZeros (padZeros kk (natChars (M % 10 ^ kk)))) : ℚ) /
          10 ^ (kk - t) * 10 ^ kk =
          (digitsVal (stripZeros (padZeros kk (natChars (M % 10 ^ kk)))) : ℚ) * 10 ^ t := by
        rw [hpowsplit]
        field_simp
        ring
      rw [h2]
      have hcast : ((10 ^ kk * (M / 10 ^ kk) +
          digitsVal (stripZeros (padZeros kk (natChars (M % 10 ^ kk)))) * 10 ^ t : ℕ) : ℚ) =
          ((M : ℕ) : ℚ) := by
        rw [hval, hdm]
      push_cast at hcast
      linear_combination hcast

theorem g6m_cast (v : ℚ) (hv : 0 ≤ v) (k : ℕ) (hd : (v.den : ℕ) ∣ 10 ^ k) :
    ((v.num.natAbs * (10 ^ k / v.den) : ℕ) : ℚ) = v * 10 ^ k := by
  have hnum : 0 ≤ v.num := Rat.num_nonneg.mpr hv
  have he : (v.den : ℕ) * (10 ^ k / v.den) = 10 ^ k := Nat.mul_div_cancel' hd
  have hden0 : ((v.den : ℚ)) ≠ 0 := by
    exact_mod_cast v.den_nz
  have hQ : ((10 : ℚ)) ^ k = (v.den : ℚ) * ((10 ^ k / v.den : ℕ) : ℚ) := by
    exact_mod_cast (congrArg (fun n : ℕ => (n : ℚ)) he).symm
  have hv' : (v.den : ℚ) * v = ((v.num : ℤ) : ℚ) := by
    nth_rewrite 2 [← Rat.num_div_den v]
    field_simp
  have key : v * 10 ^ k = ((v.num : ℤ) : ℚ) * ((10 ^ k / v.den : ℕ) : ℚ) := by
    calc v * 10 ^ k = v * ((v.den : ℚ) * ((10 ^ k / v.den : ℕ) : ℚ)) := by rw [← hQ]
      _ = ((v.den : ℚ) * v) * ((10 ^ k / v.den : ℕ) : ℚ) := by ring
      _ = ((v.num : ℤ) : ℚ) * ((10 ^ k / v.den : ℕ) : ℚ) := by rw [hv']
  rw [key]
  push_cast
  rw [Int.cast_natAbs, abs_of_nonneg hnum]

theorem qNumberG6_zero_case (v : ℚ) (k : ℕ) (hk : decExp v.den = some k)
    (hm0 : v.num.natAbs * (10 ^ k / v.den) = 0) : qNumberG6 v = ['0'] := by
  simp only [qNumberG6, hk]
  rw [if_pos hm0]

theorem qNumberG6_exact_case (v : ℚ) (k : ℕ) (hk : decExp v.den = some k)
    (hm6 : (natChars (v.num.natAbs * (10 ^ k / v.den))).length ≤ 6)
    (hmne : ¬(v.num.natAbs * (10 ^ k / v.den) = 0))
    (he : -4 ≤ ((natChars (v.num.natAbs * (10 ^ k / v.den))).length : ℤ) - 1 - (k : ℤ)) :
    qNumberG6 v = fixed6 (v.num.natAbs * (10 ^ k / v.den)) k := by
  have hcut : (natChars (v.num.natAbs * (10 ^ k / v.den))).length - 6 = 0 := by omega
  simp only [qNumberG6, hk]
  rw [if_neg hmne, hcut]
  simp only [reduceIte, Nat.sub_zero, Nat.cast_zero, sub_zero, Nat.zero_le, true_and]
  rw [if_pos ⟨he, by omega⟩]

theorem qParseUnsigned_qNumberG6 (v : ℚ) (hv : 0 ≤ v) (hx : exactG6 v = true) :
    qParseUnsigned (qNumberG6 v) = some v := by
  cases hk : decExp v.den with
  | none => rw [exactG6, hk] at hx; cases hx
  | some k =>
    rw [exactG6, hk] at hx
    simp only [Bool.and_eq_true, Bool.or_eq_true, decide_eq_true_eq] at hx
    obtain ⟨h6, hx2⟩ := hx
    have hdvd := decExp_dvd v.den k hk
    have h10 : ((10 : ℚ)) ^ k ≠ 0 := by positivity
    by_cases hm0 : v.num.natAbs * (10 ^ k / v.den) = 0
    · have hvz : v = 0 := by
        have hcast := g6m_cast v hv k hdvd
        rw [hm0] at hcast
        have : v * 10 ^ k = 0 := by
          rw [← hcast]
          norm_num
        rcases mul_eq_zero.mp this with h | h
        · exact h
        · exact absurd h h10
      rw [qNumberG6_zero_case v k hk hm0,
        qParseUnsigned_all_digits ['0'] (by simp) (by decide), hvz,
        show digitsVal ['0'] = 0 from by decide]
      norm_num
    · have he := hx2.resolve_left hm0
      rw [qNumberG6_exact_case v k hk h6 hm0 he, qParseUnsigned_fixed6]
      congr 1
      rw [g6m_cast v hv k hdvd, mul_div_cancel_right₀ _ h10]

theorem qNumberG6_neg (v : ℚ) : qNumberG6 (-v) = qNumberG6 v := by
  have h1 : (-v).den = v.den := rfl
  have h2 : (-v).num.natAbs = v.num.natAbs := by
    rw [show (-v).num = -v.num from rfl, Int.natAbs_neg]
  simp only [qNumberG6, h1, h2]

theorem exactG6_neg (v : ℚ) : exactG6 (-v) = exactG6 v := by
  have h1 : (-v).den = v.den := rfl
  have h2 : (-v).num.natAbs = v.num.natAbs := by
    rw [show (-v).num = -v.num from rfl, Int.natAbs_neg]
  simp only [exactG6, h1, h2]

theorem fixed6_head (M kk : ℕ) : ∃ c cs, fixed6 M kk = c :: cs ∧ c.isDigit = true := by
  by_cases hk : kk = 0
  · obtain ⟨c, cs, heq, hcd⟩ := natChars_head M
    exact ⟨c, cs, by rw [fixed6, if_pos hk, heq], hcd⟩
  · by_cases hF : stripZeros (padZeros kk (natChars (M % 10 ^ kk))) = []
    · obtain ⟨c, cs, heq, hcd⟩ := natChars_head (M / 10 ^ kk)
      exact ⟨c, cs, by rw [fixed6, if_neg hk, if_pos hF, heq], hcd⟩
    · obtain ⟨c, cs, heq, hcd⟩ := natChars_head (M / 10 ^ kk)
      refine ⟨c, cs ++ '.' :: stripZeros (padZeros kk (natChars (M % 10 ^ kk))), ?_, hcd⟩
      rw [fixed6, if_neg hk, if_neg hF, heq, List.cons_append]

theorem sci6_head (M : ℕ) (e : ℤ) : ∃ c cs, sci6 M e = c :: cs ∧ c.isDigit = true := by
  obtain ⟨c, cs, heq, hcd⟩ := natChars_head M
  refine ⟨c, ?_, ?_, hcd⟩
  · exact (if stripZeros cs = [] then [] else '.' :: stripZeros cs) ++
      'e' :: (if e < 0 then '-' else '+') :: padZeros 2 (natChars e.natAbs)
  · simp only [sci6, heq]
    rw [List.cons_append]

theorem qNumberG6_head (v : ℚ) : ∃ c cs, qNumberG6 v = c :: cs ∧ c.isDigit = true := by
  have h : qNumberG6 v = ['0'] ∨ (∃ M kk, qNumberG6 v = fixed6 M kk) ∨
      (∃ M e, qNumberG6 v = sci6 M e) := by
    rw [qNumberG6]
    split
    · exact Or.inl rfl
    · dsimp only
      split_ifs <;> first
        | exact Or.inl rfl
        | exact Or.inr (Or.inl ⟨_, _, rfl⟩)
        | exact Or.inr (Or.inr ⟨_, _, rfl⟩)
  rcases h with h | ⟨M, kk, h⟩ | ⟨M, e, h⟩
  · exact ⟨'0', [], h, rfl⟩
  · obtain ⟨c, cs, heq, hcd⟩ := fixed6_head M kk
    exact ⟨c, cs, h.trans heq, hcd⟩
  · obtain ⟨c, cs, heq, hcd⟩ := sci6_head M e
    exact ⟨c, cs, h.trans heq, hcd⟩

theorem qParseDouble_cons_digit (c : Char) (cs : Str) (h : c.isDigit = true) :
    qParseDouble (c :: cs) = qParseUnsigned (c :: cs) := by
  have h1 : c ≠ '-' := by rintro rfl; exact absurd h (by decide)
  have h2 : c ≠ '+' := by rintro rfl; exact absurd h (by decide)
  simp only [qParseDouble, if_neg h1, if_neg h2]

theorem qParseDouble_qNumberDouble (v : ℚ) (hx : exactG6 v = true) :
    qParseDouble (qNumberDouble v) = some v := by
  by_cases hv : v < 0
  · rw [qNumberDouble, if_pos hv]
    show (qParseUnsigned (qNumberG6 v)).map Neg.neg = some v
    rw [← qNumberG6_neg]
    rw [qParseUnsigned_qNumberG6 (-v) (by linarith) (by rw [exactG6_neg]; exact hx)]
    simp
  · rw [qNumberDouble, if_neg hv]
    obtain ⟨c, cs, heq, hcd⟩ := qNumberG6_head v
    rw [heq, qParseDouble_cons_digit _ _ hcd, ← heq]
    exact qParseUnsigned_qNumberG6 v (not_lt.mp hv) hx

theorem qParseInt_cons_digit (c : Char) (cs : Str) (h : c.isDigit = true) :
    qParseInt (c :: cs) =
      if (c :: cs).all Char.isDigit then some ((digitsVal (c :: cs) : ℤ)) else none := by
  have h1 : c ≠ '-' := by rintro rfl; exact absurd h (by decide)
  have h2 : c ≠ '+' := by rintro rfl; exact absurd h (by decide)
  simp only [qParseInt, if_neg h1, if_neg h2]

theorem qParseInt_qNumberInt (z : ℤ) : qParseInt (qNumberInt z) = some z := by
  by_cases hz : z < 0
  · rw [qNumberInt, if_pos hz]
    show (if '-' = '-' then
        if natChars z.natAbs ≠ [] ∧ (natChars z.natAbs).all Char.isDigit then
          some (-(digitsVal (natChars z.natAbs) : ℤ)) else none
      else if '-' = '+' then
        if natChars z.natAbs ≠ [] ∧ (natChars z.natAbs).all Char.isDigit then
          some ((digitsVal (natChars z.natAbs) : ℤ)) else none
      else if ('-' :: natChars z.natAbs).all Char.isDigit then
        some ((digitsVal ('-' :: natChars z.natAbs) : ℤ)) else none) = some z
    rw [if_pos rfl, if_pos ⟨natChars_ne_nil _, natChars_all_digits _⟩, natChars_val]
    congr 1
    omega
  · rw [qNumberInt, if_neg hz]
    obtain ⟨c, cs, heq⟩ := List.exists_cons_of_ne_nil (natChars_ne_nil z.natAbs)
    have hall := natChars_all_digits z.natAbs
    have hcd : c.isDigit = true := by
      rw [heq, List.all_cons, Bool.and_eq_true] at hall
      exact hall.1
    rw [heq, qParseInt_cons_digit _ _ hcd, ← heq,
      if_pos (natChars_all_digits _), natChars_val]
    congr 1
    omega

theorem qNumberInt_ne_nil (z : ℤ) : qNumberInt z ≠ [] := by
  rw [qNumberInt]
  split
  · simp
  · exact natChars_ne_nil _

theorem qNumberDouble_ne_nil (v : ℚ) : qNumberDouble v ≠ [] := by
  rw [qNumberDouble]
  split
  · simp
  · obtain ⟨c, cs, heq, _⟩ := qNumberG6_head v
    rw [heq]
    simp

theorem qToDouble_qNumberDouble (v : ℚ) (hx : exactG6 v = true) :
    qToDouble (qNumberDouble v) = v := by
  rw [qToDouble, qParseDouble_qNumberDouble v hx]
  rfl

theorem qToInt_qNumberInt (z : ℤ) : qToInt (qNumberInt z) = z := by
  rw [qToInt, qParseInt_qNumberInt]
  rfl

theorem isEmpty_false_of_ne_nil (l : Str) (h : l ≠ []) : l.isEmpty = false := by
  cases l with
  | nil => exact absurd rfl h
  | cons c cs => rfl

/-- A double-valued form field holding well-formed numeric input: empty
(the bound is unfilled) or plain decimal text its parser accepts. -/
def WfDoubleField (s : Str) : Prop := s = [] ∨ (qParseDouble s).isSome = true

/-- An int-valued form field holding well-formed numeric input. -/
def WfIntField (s : Str) : Prop := s = [] ∨ (qParseInt s).isSome = true

/-- A double-valued form field whose value the `%g`/6-significant-digit
rendering of `QString::number(double)` reproduces exactly: empty, or parsed
text whose value `qNumberG6` renders without truncation (at most six
significant digits, within the fixed-notation exponent range). -/
def WfG6Field (s : Str) : Prop :=
  s = [] ∨ ((qParseDouble s).isSome = true ∧ exactG6 (qToDouble s) = true)

theorem wfG6_roundtrip (s : Str) (h : WfG6Field s) :
    (if !s.isEmpty then qNumberDouble (qToDouble s) else []).isEmpty = s.isEmpty ∧
    qToDouble (if !s.isEmpty then qNumberDouble (qToDouble s) else []) = qToDouble s := by
  rcases h with rfl | ⟨h, hx⟩
  · simp
  · obtain ⟨v, hv⟩ := Option.isSome_iff_exists.mp h
    have hsne : s ≠ [] := by
      rintro rfl
      rw [show qParseDouble [] = none from rfl] at hv
      cases hv
    have hie : s.isEmpty = false := isEmpty_false_of_ne_nil s hsne
    rw [hie]
    constructor
    · simp only [Bool.not_false, if_pos]
      exact isEmpty_false_of_ne_nil _ (qNumberDouble_ne_nil _)
    · simp only [Bool.not_false, if_pos]
      exact qToDouble_qNumberDouble (qToDouble s) hx

theorem intField_roundtrip (s : Str) :
    (if !s.isEmpty then qNumberInt (qToInt s) else s).isEmpty = s.isEmpty ∧
    qToInt (if !s.isEmpty then qNumberInt (qToInt s) else s) = qToInt s := by
  cases s with
  | nil => simp
  | cons c cs =>
    constructor
    · show (qNumberInt (qToInt (c :: cs))).isEmpty = (c :: cs).isEmpty
      rw [isEmpty_false_of_ne_nil _ (qNumberInt_ne_nil _)]
      rfl
    · show qToInt (qNumberInt (qToInt (c :: cs))) = qToInt (c :: cs)
      exact qToInt_qNumberInt _

/-- C9 (corrected): `ToForm` after `FromForm` on the unmodified form
reproduces the original form contents — each field's filled/unfilled state
(emptiness) and its numeric value — for the MinMax, SocketsColors (shared by
LinksColors) and NameSearch form shapes, PROVIDED each double field's value
survives the `%g`/6-significant-digit rendering of `QString::number(double)`
exactly (`WfG6Field`); in particular an unfilled colour field, which
`SocketsColorsFilter::ToForm` leaves untouched, stays empty. Outside that
range the 6-digit truncation changes the value (see the refutation below). -/
theorem C9_form_roundtrip (f : MinMaxForm) (g : ColorsForm) (nf : NameForm)
    (d0 d1 d2 : FilterData)
    (hmin : WfG6Field f.min_text) (hmax : WfG6Field f.max_text)
    (_hr : WfIntField g.r_text) (_hg : WfIntField g.g_text) (_hb : WfIntField g.b_text) :
    ((MinMaxFilter.ToForm (MinMaxFilter.FromForm f d0)).min_text.isEmpty = f.min_text.isEmpty ∧
     qToDouble (MinMaxFilter.ToForm (MinMaxFilter.FromForm f d0)).min_text = qToDouble f.min_text ∧
     (MinMaxFilter.ToForm (MinMaxFilter.FromForm f d0)).max_text.isEmpty = f.max_text.isEmpty ∧
     qToDouble (MinMaxFilter.ToForm (MinMaxFilter.FromForm f d0)).max_text = qToDouble f.max_text) ∧
    ((SocketsColorsFilter.ToForm (SocketsColorsFilter.FromForm g d1) g).r_text.isEmpty = g.r_text.isEmpty ∧
     qToInt (SocketsColorsFilter.ToForm (SocketsColorsFilter.FromForm g d1) g).r_text = qToInt g.r_text ∧
     (SocketsColorsFilter.ToForm (SocketsColorsFilter.FromForm g d1) g).g_text.isEmpty = g.g_text.isEmpty ∧
     qToInt (SocketsColorsFilter.ToForm (SocketsColorsFilter.FromForm g d1) g).g_text = qToInt g.g_text ∧
     (SocketsColorsFilter.ToForm (SocketsColorsFilter.FromForm g d1) g).b_text.isEmpty = g.b_text.isEmpty ∧
     qToInt (SocketsColorsFilter.ToForm (SocketsColorsFilter.FromForm g d1) g).b_text = qToInt g.b_text ∧
     (g.r_text = [] → (SocketsColorsFilter.ToForm (SocketsColorsFilter.FromForm g d1) g).r_text = []) ∧
     (g.g_text = [] → (SocketsColorsFilter.ToForm (SocketsColorsFilter.FromForm g d1) g).g_text = []) ∧
     (g.b_text = [] → (SocketsColorsFilter.ToForm (SocketsColorsFilter.FromForm g d1) g).b_text = [])) ∧
    NameSearchFilter.ToForm (NameSearchFilter.FromForm nf d2) = nf := by
  refine ⟨⟨?_, ?_, ?_, ?_⟩, ⟨?_, ?_, ?_, ?_, ?_, ?_, ?_, ?_, ?_⟩, rfl⟩
  · exact (wfG6_roundtrip f.min_text hmin).1
  · exact (wfG6_roundtrip f.min_text hmin).2
  · exact (wfG6_roundtrip f.max_text hmax).1
  · exact (wfG6_roundtrip f.max_text hmax).2
  · exact (intField_roundtrip g.r_text).1
  · exact (intField_roundtrip g.r_text).2
  · exact (intField_roundtrip g.g_text).1
  · exact (intField_roundtrip g.g_text).2
  · exact (intField_roundtrip g.b_text).1
  · exact (intField_roundtrip g.b_text).2
  · intro h
    show (if !g.r_text.isEmpty then qNumberInt (qToInt g.r_text) else g.r_text) = []
    rw [h]
    rfl
  · intro h
    show (if !g.g_text.isEmpty then qNumberInt (qToInt g.g_text) else g.g_text) = []
    rw [h]
    rfl
  · intro h
    show (if !g.b_text.isEmpty then qNumberInt (qToInt g.b_text) else g.b_text) = []
    rw [h]
    rfl

/-- Concrete forms for the round-trip witness: min "1.5", max empty;
r "3", g empty, b "-2"; query "a". -/
def mmF : MinMaxForm := ⟨['1', '.', '5'], []⟩

/-- The value of the text "1.5" under the `toDouble` model. -/
theorem qToDouble_mmF_min : qToDouble ['1', '.', '5'] = Rat.divInt 15 10 := by
  have h2 : qParseDouble ['1', '.', '5'] =
      some ((digitsVal ['1'] : ℚ) +
        (digitsVal ['5'] : ℚ) / 10 ^ ([('5' : Char)] : Str).length) := by
    rw [show qParseDouble ['1', '.', '5'] = qParseUnsigned (['1'] ++ '.' :: ['5']) from rfl]
    exact qParseUnsigned_decimal ['1'] ['5'] (by decide) (by decide) (by decide)
  rw [qToDouble, h2]
  show (digitsVal ['1'] : ℚ) + (digitsVal ['5'] : ℚ) / 10 ^ (1 : ℕ) = Rat.divInt 15 10
  rw [show digitsVal ['1'] = 1 from by decide, show digitsVal ['5'] = 5 from by decide,
    Rat.divInt_eq_div]
  push_cast
  norm_num

def colF : ColorsForm := ⟨['3'], [], ['-', '2']⟩

def nmF : NameForm := ⟨['a']⟩

/-- C9 witness: the round trip at the concrete forms `mmF`, `colF`, `nmF`. -/
theorem C9_witness :
    ((MinMaxFilter.ToForm (MinMaxFilter.FromForm mmF (freshFilterData 0 0 0 0 0))).min_text.isEmpty = mmF.min_text.isEmpty ∧
     qToDouble (MinMaxFilter.ToForm (MinMaxFilter.FromForm mmF (freshFilterData 0 0 0 0 0))).min_text = qToDouble mmF.min_text ∧
     (MinMaxFilter.ToForm (MinMaxFilter.FromForm mmF (freshFilterData 0 0 0 0 0))).max_text.isEmpty = mmF.max_text.isEmpty ∧
     qToDouble (MinMaxFilter.ToForm (MinMaxFilter.FromForm mmF (freshFilterData 0 0 0 0 0))).max_text = qToDouble mmF.max_text) ∧
    ((SocketsColorsFilter.ToForm (SocketsColorsFilter.FromForm colF (freshFilterData 0 0 0 0 0)) colF).r_text.isEmpty = colF.r_text.isEmpty ∧
     qToInt (SocketsColorsFilter.ToForm (SocketsColorsFilter.FromForm colF (freshFilterData 0 0 0 0 0)) colF).r_text = qToInt colF.r_text ∧
     (SocketsColorsFilter.ToForm (SocketsColorsFilter.FromForm colF (freshFilterData 0 0 0 0 0)) colF).g_text.isEmpty = colF.g_text.isEmpty ∧
     qToInt (SocketsColorsFilter.ToForm (SocketsColorsFilter.FromForm colF (freshFilterData 0 0 0 0 0)) colF).g_text = qToInt colF.g_text ∧
     (SocketsColorsFilter.ToForm (SocketsColorsFilter.FromForm colF (freshFilterData 0 0 0 0 0)) colF).b_text.isEmpty = colF.b_text.isEmpty ∧
     qToInt (SocketsColorsFilter.ToForm (SocketsColorsFilter.FromForm colF (freshFilterData 0 0 0 0 0)) colF).b_text = qToInt colF.b_text ∧
     (colF.r_text = [] → (SocketsColorsFilter.ToForm (SocketsColorsFilter.FromForm colF (freshFilterData 0 0 0 0 0)) colF).r_text = []) ∧
     (colF.g_text = [] → (SocketsColorsFilter.ToForm (SocketsColorsFilter.FromForm colF (freshFilterData 0 0 0 0 0)) colF).g_text = []) ∧
     (colF.b_text = [] → (SocketsColorsFilter.ToForm (SocketsColorsFilter.FromForm colF (freshFilterData 0 0 0 0 0)) colF).b_text = [])) ∧
    NameSearchFilter.ToForm (NameSearchFilter.FromForm nmF (freshFilterData 0 0 0 0 0)) = nmF :=
  C9_form_roundtrip mmF colF nmF (freshFilterData 0 0 0 0 0) (freshFilterData 0 0 0 0 0)
    (freshFilterData 0 0 0 0 0)
    (Or.inr ⟨by decide, by
      show exactG6 (qToDouble ['1', '.', '5']) = true
      rw [qToDouble_mmF_min]
      decide⟩)
    (Or.inl rfl) (Or.inr (by decide)) (Or.inl rfl) (Or.inr (by decide))

/-- The value of the text "0.1234567" under the `toDouble` model. -/
theorem qToDouble_seven_digits :
    qToDouble ['0', '.', '1', '2', '3', '4', '5', '6', '7'] =
      Rat.divInt 1234567 10000000 := by
  have h2 : qParseDouble ['0', '.', '1', '2', '3', '4', '5', '6', '7'] =
      some ((digitsVal ['0'] : ℚ) +
        (digitsVal ['1', '2', '3', '4', '5', '6', '7'] : ℚ) /
          10 ^ (['1', '2', '3', '4', '5', '6', '7'] : Str).length) := by
    rw [show qParseDouble ['0', '.', '1', '2', '3', '4', '5', '6', '7'] =
      qParseUnsigned (['0'] ++ '.' :: ['1', '2', '3', '4', '5', '6', '7']) from rfl]
    exact qParseUnsigned_decimal ['0'] ['1', '2', '3', '4', '5', '6', '7']
      (by decide) (by decide) (by decide)
  rw [qToDouble, h2]
  show (digitsVal ['0'] : ℚ) + (digitsVal ['1', '2', '3', '4', '5', '6', '7'] : ℚ) /
      10 ^ (7 : ℕ) = Rat.divInt 1234567 10000000
  rw [show digitsVal ['0'] = 0 from by decide,
    show digitsVal ['1', '2', '3', '4', '5', '6', '7'] = 1234567 from by decide,
    Rat.divInt_eq_div]
  push_cast
  norm_num

/-- The value of the text "0.123457" under the `toDouble` model. -/
theorem qToDouble_six_digits :
    qToDouble ['0', '.', '1', '2', '3', '4', '5', '7'] = Rat.divInt 123457 1000000 := by
  have h2 : qParseDouble ['0', '.', '1', '2', '3', '4', '5', '7'] =
      some ((digitsVal ['0'] : ℚ) +
        (digitsVal ['1', '2', '3', '4', '5', '7'] : ℚ) /
          10 ^ (['1', '2', '3', '4', '5', '7'] : Str).length) := by
    rw [show qParseDouble ['0', '.', '1', '2', '3', '4', '5', '7'] =
      qParseUnsigned (['0'] ++ '.' :: ['1', '2', '3', '4', '5', '7']) from rfl]
    exact qParseUnsigned_decimal ['0'] ['1', '2', '3', '4', '5', '7']
      (by decide) (by decide) (by decide)
  rw [qToDouble, h2]
  show (digitsVal ['0'] : ℚ) + (digitsVal ['1', '2', '3', '4', '5', '7'] : ℚ) /
      10 ^ (6 : ℕ) = Rat.divInt 123457 1000000
  rw [show digitsVal ['0'] = 0 from by decide,
    show digitsVal ['1', '2', '3', '4', '5', '7'] = 123457 from by decide,
    Rat.divInt_eq_div]
  push_cast
  norm_num

/-- C9 refutation of the unrestricted claim: "0.1234567" is well-formed
numeric input the field parser accepts, yet `FromForm; ToForm` on a MinMax
form does not reproduce the field's value — the `%g`/6-significant-digit
rendering truncates it to "0.123457". -/
theorem C9_g6_truncation_refuted :
    WfDoubleField ['0', '.', '1', '2', '3', '4', '5', '6', '7'] ∧
    qToDouble (MinMaxFilter.ToForm (MinMaxFilter.FromForm
        ⟨['0', '.', '1', '2', '3', '4', '5', '6', '7'], []⟩
        (freshFilterData 0 0 0 0 0))).min_text ≠
      qToDouble ['0', '.', '1', '2', '3', '4', '5', '6', '7'] := by
  constructor
  · exact Or.inr (by decide)
  · have hfield : (MinMaxFilter.ToForm (MinMaxFilter.FromForm
        ⟨['0', '.', '1', '2', '3', '4', '5', '6', '7'], []⟩
        (freshFilterData 0 0 0 0 0))).min_text =
        qNumberDouble (qToDouble ['0', '.', '1', '2', '3', '4', '5', '6', '7']) := rfl
    rw [hfield, qToDouble_seven_digits,
      show qNumberDouble (Rat.divInt 1234567 10000000) =
        ['0', '.', '1', '2', '3', '4', '5', '7'] from by decide,
      qToDouble_six_digits]
    decide
